import Mathlib

/-!
Verification of the charbot artifact pipeline (src/telegram.py, src/woman.py).

The Python sources are shallowly embedded: the filesystem is a finite
association list from path strings to file metadata, external tool
invocations (ffmpeg, the probe, the HTTP upload) are driven by an
environment record supplying each call's outcome, and every decision
function of the sources is translated into an executable Lean definition.
-/

namespace Charbot

/-- A filesystem path, as the string the Python code manipulates. -/
abbrev FPath := String

/-- Metadata of one file: size in bytes and last-modified time.
Times are integers (seconds), mirroring the arithmetic the sources do on
`time.time()` and `st_mtime`. -/
structure FileInfo where
  size : Nat
  mtime : Int
deriving DecidableEq, Repr

/-- The filesystem: an association list path ↦ metadata (first hit wins). -/
abbrev FS := List (FPath × FileInfo)

def fsGet : FS → FPath → Option FileInfo
  | [], _ => none
  | e :: t, p => if e.1 = p then some e.2 else fsGet t p

def fsDel : FS → FPath → FS
  | [], _ => []
  | e :: t, p => if e.1 = p then fsDel t p else e :: fsDel t p

def fsSet (fs : FS) (p : FPath) (i : FileInfo) : FS :=
  (p, i) :: fsDel fs p

def fsExists (fs : FS) (p : FPath) : Bool :=
  (fsGet fs p).isSome

/-! ### pathlib operations

`pathName`, `suffixOf`, `stemOf`, `withSuffix`, `withStem` model Python's
`pathlib.Path.name/.suffix/.stem/.with_suffix/.with_stem` for the ordinary
file names this code produces (no trailing slashes, names not starting
with a dot). -/

/-- Characters after the last `/` (the last path component). -/
def pathNameChars (l : List Char) : List Char :=
  l.foldl (fun acc ch => if ch = '/' then [] else acc ++ [ch]) []

/-- Last component of a path (Python `Path.name`). -/
def pathName (p : FPath) : String :=
  String.mk (pathNameChars p.data)

/-- Directory prefix including the separator, so `dirPrefix p ++ pathName p = p`. -/
def dirPrefix (p : FPath) : String :=
  String.mk (p.data.take (p.data.length - (pathNameChars p.data).length))

/-- Split a character list at its last dot, returning the part before it
and the part from the dot on; `none` when there is no dot. -/
def lastDotSplit : List Char → Option (List Char × List Char)
  | [] => none
  | a :: t =>
      match lastDotSplit t with
      | some (st, suf) => some (a :: st, suf)
      | none => if a = '.' then some ([], '.' :: t) else none

/-- Split a file name at its last dot: `(stem, suffix)` per pathlib.
A name with no dot, or whose only dot is at position 0, has no suffix. -/
def stemSuffix (name : String) : String × String :=
  match lastDotSplit name.data with
  | none => (name, "")
  | some (st, suf) =>
      if st = [] then (name, "") else (String.mk st, String.mk suf)

/-- Python `Path.suffix`. -/
def suffixOf (p : FPath) : String := (stemSuffix (pathName p)).2

/-- Python `Path.stem`. -/
def stemOf (p : FPath) : String := (stemSuffix (pathName p)).1

/-- Python `Path.with_suffix s` (with `s` either empty or starting with a dot). -/
def withSuffix (p : FPath) (s : String) : FPath :=
  dirPrefix p ++ stemOf p ++ s

/-- Python `Path.with_stem s`. -/
def withStem (p : FPath) (s : String) : FPath :=
  dirPrefix p ++ s ++ suffixOf p

/-- Python `str.lower` (ASCII, which is all this code feeds it). -/
def strLower (s : String) : String :=
  String.mk (s.data.map Char.toLower)

/-- Python `str.endswith`. -/
def strEndsWith (s suf : String) : Bool := suf.data.isSuffixOf s.data

/-- Python `sub in s` substring test. -/
def strContains (s sub : String) : Bool :=
  (s.toList.tails).any (fun t => sub.toList.isPrefixOf t)

/-! ### External collaborators

Each ffmpeg invocation made by `src/telegram.py` is one of three shapes;
the codec-relevant arguments of each shape are transcribed verbatim from
the subprocess argument lists in the source. The outcome of a call (exit
status, and whether/with what size an output file was produced) comes
from the environment `Env`, as does the container probe
(`is_mp4_h264_aac`) and the HTTP upload outcome. -/

inductive FfMode
  | remuxCopy    -- `-c copy` (remux_copy / remux_to_mp4_copy)
  | copyVaac     -- `-c:v copy -c:a aac` (remux_to_mp4_copy_v_copy_aac)
  | transcodeAR  -- libx264 re-encode (transcode_preserve_ar)
deriving DecidableEq, Repr

/-- The ffmpeg scale filter string from `transcode_preserve_ar`. -/
def scaleExpr : String :=
  "scale=if(gt(a,16/9),1280,-2):if(gt(a,16/9),-2,720),setsar=1"

/-- Codec arguments of `remux_copy` (src/telegram.py). -/
def remuxCopyArgs (container : String) : List String :=
  ["-c", "copy"] ++ (if container = "mp4" then ["-movflags", "+faststart"] else [])

/-- Codec arguments of `remux_to_mp4_copy` (src/telegram.py). -/
def remuxToMp4CopyArgs : List String :=
  ["-c", "copy", "-movflags", "+faststart"]

/-- Codec arguments of `remux_to_mp4_copy_v_copy_aac` (src/telegram.py). -/
def copyVaacArgs : List String :=
  ["-c:v", "copy", "-c:a", "aac", "-b:a", "128k", "-movflags", "+faststart"]

/-- Codec arguments of `transcode_preserve_ar` (src/telegram.py). -/
def transcodeArArgs (container : String) : List String :=
  ["-c:v", "libx264", "-preset", "veryfast", "-crf", "23",
   "-vf", scaleExpr, "-c:a", "aac", "-b:a", "128k",
   "-movflags", if container = "mp4" then "+faststart" else "frag_keyframe"]

/-- One ffmpeg invocation: its shape, codec arguments, input and output path. -/
structure FfCall where
  mode : FfMode
  args : List String
  src : FPath
  out : FPath
deriving DecidableEq, Repr

/-- Outcome of one ffmpeg invocation: whether it exited 0, and whether it
left an output file (of which size) at the call's output path. -/
structure FfEff where
  exitZero : Bool
  produced : Option Nat
deriving DecidableEq, Repr

/-- Outcome of the HTTP upload request in `upload_via_bot`:
2xx response, non-2xx response, or a raised exception. -/
inductive UploadOutcome
  | ok
  | httpError (code : Nat)
  | exc
deriving DecidableEq, Repr

/-- The environment: outcomes of all external calls. -/
structure Env where
  ff : FfCall → FfEff
  isMp4H264Aac : FPath → Bool
  upload : UploadOutcome

/-- The two transports the spec's Delivery Router distinguishes. The
high-capacity constructor exists to state the routing claims; the
embedded code never emits it. -/
inductive Transport
  | botHTTP
  | highCapacity
deriving DecidableEq, Repr

structure NetCall where
  transport : Transport
  path : FPath
deriving DecidableEq, Repr

/-- One recorded ffmpeg invocation together with the boolean the Python
wrapper returned for it. -/
structure TraceEntry where
  call : FfCall
  ok : Bool
deriving DecidableEq, Repr

/-- Program state threaded through the embedded functions: the filesystem
plus the trace of external calls issued so far. -/
structure St where
  fs : FS
  trace : List TraceEntry
  net : List NetCall
deriving DecidableEq, Repr

/-- Common body of the four ffmpeg wrappers in src/telegram.py: run the
call; on exit 0 return `out.exists()`; on a raised error unlink the
output path if it exists and return false. -/
def ffStep (env : Env) (st : St) (call : FfCall) : St × Bool :=
  let e := env.ff call
  let fs1 := match e.produced with
    | some n => fsSet st.fs call.out ⟨n, 0⟩
    | none => st.fs
  if e.exitZero then
    let ok := fsExists fs1 call.out
    (⟨fs1, st.trace ++ [⟨call, ok⟩], st.net⟩, ok)
  else
    (⟨fsDel fs1 call.out, st.trace ++ [⟨call, false⟩], st.net⟩, false)

/-- `remux_copy(src, dst, container)` — output is `dst.with_suffix("." + container)`. -/
def remux_copy (env : Env) (st : St) (src dst container : FPath) : St × Bool :=
  ffStep env st ⟨.remuxCopy, remuxCopyArgs container, src, withSuffix dst ("." ++ container)⟩

/-- `transcode_preserve_ar(src, dst, container)` — output is `dst.with_suffix("." + container)`. -/
def transcode_preserve_ar (env : Env) (st : St) (src dst container : FPath) : St × Bool :=
  ffStep env st ⟨.transcodeAR, transcodeArArgs container, src, withSuffix dst ("." ++ container)⟩

/-- `remux_to_mp4_copy(src, dst)` — output is `dst` itself. -/
def remux_to_mp4_copy (env : Env) (st : St) (src dst : FPath) : St × Bool :=
  ffStep env st ⟨.remuxCopy, remuxToMp4CopyArgs, src, dst⟩

/-- `remux_to_mp4_copy_v_copy_aac(src, dst)` — output is `dst` itself. -/
def remux_to_mp4_copy_v_copy_aac (env : Env) (st : St) (src dst : FPath) : St × Bool :=
  ffStep env st ⟨.copyVaac, copyVaacArgs, src, dst⟩

/-! ### Configuration (environment variables of src/telegram.py) -/

structure Cfg where
  extensions : List String := [".mp4", ".mkv", ".mov", ".m4v"]
  minFileMB : Nat := 5
  maxFileGB : Nat := 0        -- 0 = no limit
  fileStableAge : Int := 30
  partStableAge : Int := 180
  partMinMB : Nat := 5
  moveBadParts : Bool := true
  deleteAfterSend : Bool := true
  quarantineDir : FPath := "_bad"
deriving Repr

def defaultCfg : Cfg := {}

/-! ### Recovery of `.part` files (src/telegram.py) -/

/-- Output base of `finalize_part_file`: strip `.part`; if what remains
does not already end in `.mp4`/`.mkv`, aim it at `.mp4`. -/
def finalizeOutBase (p : FPath) : FPath :=
  let baseNoPart := withSuffix p ""
  if strLower (suffixOf baseNoPart) = ".mp4" ∨ strLower (suffixOf baseNoPart) = ".mkv" then
    baseNoPart
  else
    withSuffix baseNoPart ".mp4"

/-- `finalize_part_file(p)`: cascade remux→MP4, remux→MKV, transcode→MP4,
transcode→MKV, returning the produced final path if a tier reports
success. -/
def finalize_part_file (env : Env) (fs : FS) (p : FPath) : St × Option FPath :=
  let outBase := finalizeOutBase p
  let r1 := remux_copy env ⟨fs, [], []⟩ p outBase "mp4"
  if r1.2 then (r1.1, some (withSuffix outBase ".mp4")) else
  let r2 := remux_copy env r1.1 p outBase "mkv"
  if r2.2 then (r2.1, some (withSuffix outBase ".mkv")) else
  let r3 := transcode_preserve_ar env r2.1 p outBase "mp4"
  if r3.2 then (r3.1, some (withSuffix outBase ".mp4")) else
  let r4 := transcode_preserve_ar env r3.1 p outBase "mkv"
  if r4.2 then (r4.1, some (withSuffix outBase ".mkv")) else
  (r4.1, none)

/-- The per-file body of `recover_partials`: age/size gates, then
`finalize_part_file`; on success unlink the partial, otherwise move it to
quarantine when configured. Returns the new filesystem and the recovered
output path, if any. -/
def recover_one (cfg : Cfg) (env : Env) (fs : FS) (now : Int) (pf : FPath) : FS × Option FPath :=
  match fsGet fs pf with
  | none => (fs, none)
  | some info =>
      if now - info.mtime < cfg.partStableAge then (fs, none)
      else if info.size < cfg.partMinMB * 1024 * 1024 then (fs, none)
      else
        let r := finalize_part_file env fs pf
        match r.2 with
        | some out =>
            if fsExists r.1.fs out then
              (fsDel r.1.fs pf, some out)
            else if cfg.moveBadParts then
              match fsGet r.1.fs pf with
              | some i => (fsSet (fsDel r.1.fs pf) (cfg.quarantineDir ++ "/" ++ pathName pf) i, none)
              | none => (r.1.fs, none)
            else (r.1.fs, none)
        | none =>
            if cfg.moveBadParts then
              match fsGet r.1.fs pf with
              | some i => (fsSet (fsDel r.1.fs pf) (cfg.quarantineDir ++ "/" ++ pathName pf) i, none)
              | none => (r.1.fs, none)
            else (r.1.fs, none)

/-! ### Stability gate and readiness scan (src/telegram.py) -/

/-- `is_stable(path, min_age)`: age at least `min_age`; a vanished entry
(`FileNotFoundError`) yields false. -/
def is_stable (fs : FS) (now : Int) (p : FPath) (minAge : Int) : Bool :=
  match fsGet fs p with
  | some info => decide (now - info.mtime ≥ minAge)
  | none => false

/-- The filter chain of `list_ready_files`, one conjunct per `continue`
in the source loop: accepted extension, no `.part` suffix, no `__tmp__`
marker, minimum size, optional maximum size, stability (unless
`FORCE_SEND_ALL`). -/
def readyPred (cfg : Cfg) (force : Bool) (now : Int) (e : FPath × FileInfo) : Bool :=
  strLower (suffixOf e.1) ∈ cfg.extensions &&
  !strEndsWith (strLower (pathName e.1)) ".part" &&
  !strContains (strLower (pathName e.1)) "__tmp__" &&
  !(e.2.size < cfg.minFileMB * 1024 * 1024) &&
  !(cfg.maxFileGB > 0 && e.2.size > cfg.maxFileGB * 1024 * 1024 * 1024) &&
  (force || !(now - e.2.mtime < cfg.fileStableAge))

/-- Sort key relation of `candidates.sort(key=mtime_safe)`: by mtime. -/
def mtimeLE (a b : FPath × FileInfo) : Prop := a.2.mtime ≤ b.2.mtime

instance : DecidableRel mtimeLE := fun a b => inferInstanceAs (Decidable (a.2.mtime ≤ b.2.mtime))

instance : IsTotal (FPath × FileInfo) mtimeLE := ⟨fun a b => Int.le_total a.2.mtime b.2.mtime⟩

instance : IsTrans (FPath × FileInfo) mtimeLE := ⟨fun _ _ _ => Int.le_trans⟩

/-- `list_ready_files(root)` over the discovered regular files (in
discovery order, with their metadata): keep the entries passing
`readyPred`, then sort oldest-modified-first (a stable sort, as Python's
`list.sort`). -/
def list_ready_files (cfg : Cfg) (force : Bool) (now : Int) (entries : List (FPath × FileInfo)) :
    List (FPath × FileInfo) :=
  (entries.filter (readyPred cfg force now)).insertionSort mtimeLE

/-! ### Upload path (src/telegram.py) -/

/-- The upload-conversion target name: `src` with its extension (a
`.part`, if any) stripped and `.mp4` applied; when that name is already
taken, a `__tg_<timestamp>` stem suffix avoids the collision. -/
def ensureTarget (fs : FS) (now : Int) (src : FPath) : FPath :=
  let target0 := withSuffix (withSuffix src "") ".mp4"
  if fsExists fs target0 then
    withStem target0 (stemOf target0 ++ "__tg_" ++ toString now)
  else target0

/-- `ensure_streamable_mp4(src)`: already-streamable MP4 passes through;
otherwise remux copy, then video-copy+AAC, then full transcode (the
transcode tier reverts to the plain target name). Returns
`(state, mp4_path, temporaries-to-clean)`. -/
def ensure_streamable_mp4 (env : Env) (st : St) (now : Int) (src : FPath) :
    St × FPath × List FPath :=
  if env.isMp4H264Aac src then (st, src, []) else
  let base := withSuffix src ""
  let target := ensureTarget st.fs now src
  let r1 := remux_to_mp4_copy env st src target
  if r1.2 then (r1.1, target, [target]) else
  let r2 := remux_to_mp4_copy_v_copy_aac env r1.1 src target
  if r2.2 then (r2.1, target, [target]) else
  let r3 := transcode_preserve_ar env r2.1 src base "mp4"
  if r3.2 then (r3.1, withSuffix base ".mp4", [withSuffix base ".mp4"]) else
  (r3.1, src, [])

/-- `upload_via_bot(chat_id, path, caption)`: convert to a streamable
MP4, post it once through the bot HTTP transport (`sendVideo`), and on a
2xx response delete the temporaries generated here (never the original);
a non-2xx response or a raised exception returns false with no cleanup. -/
def upload_via_bot (env : Env) (st : St) (now : Int) (path : FPath) : St × Bool :=
  let r := ensure_streamable_mp4 env st now path
  let st1 := r.1
  let mp4Path := r.2.1
  let temps := r.2.2
  let st2 : St := ⟨st1.fs, st1.trace, st1.net ++ [⟨.botHTTP, mp4Path⟩]⟩
  match env.upload with
  | .ok =>
      let fs' := temps.foldl (fun f t => if t ≠ path && fsExists f t then fsDel f t else f) st2.fs
      (⟨fs', st2.trace, st2.net⟩, true)
  | .httpError _ => (st2, false)
  | .exc => (st2, false)

/-- `send_one(path)`: upload, and on success delete the original when
`DELETE_AFTER_SEND` is set. -/
def send_one (cfg : Cfg) (env : Env) (fs : FS) (now : Int) (path : FPath) : St × Bool :=
  let r := upload_via_bot env ⟨fs, [], []⟩ now path
  if r.2 && cfg.deleteAfterSend then
    (⟨fsDel r.1.fs path, r.1.trace, r.1.net⟩, r.2)
  else
    (r.1, r.2)

/-- The transports attempted by one `send_one` pass, in order. -/
def sendOneTransports (cfg : Cfg) (env : Env) (fs : FS) (now : Int) (path : FPath) :
    List Transport :=
  ((send_one cfg env fs now path).1.net).map (·.transport)

/-! ### ffmpeg scale-filter dimension semantics

The two sources hand ffmpeg literal scale filter strings:
`transcode_preserve_ar` (src/telegram.py) passes
`scale=if(gt(a,16/9),1280,-2):if(gt(a,16/9),-2,720)` and
`try_finalize_partial` (src/woman.py) passes `scale=-2:720`.
`scaleEven` renders the documented meaning of a `-2` dimension: the
value preserving the input aspect ratio, rounded to the nearest multiple
of 2 (ffmpeg computes it with `av_rescale`, rounding half away from
zero). -/

/-- `num/den` rounded (half up) to the nearest multiple of 2. -/
def scaleEven (num den : Nat) : Nat :=
  ((num + den) / (2 * den)) * 2

/-- Output (width, height) of telegram.py's scale expression `a` being
the input aspect ratio `inW/inH`: wider than 16:9 sources get width 1280
and an even derived height, others get height 720 and an even derived
width. -/
def telegramScaleDims (inW inH : Nat) : Nat × Nat :=
  if 9 * inW > 16 * inH then
    (1280, scaleEven (1280 * inH) inW)
  else
    (scaleEven (720 * inW) inH, 720)

/-- Output (width, height) of woman.py's `scale=-2:720`: height pinned
to 720, width derived from the aspect ratio. -/
def womanScale720Dims (inW inH : Nat) : Nat × Nat :=
  (scaleEven (720 * inW) inH, 720)

/-! ### Bounded-concurrency scheduler (src/woman.py `main`)

`collect_rooms` deduplicates the discovered URLs with
`list(dict.fromkeys(urls))`; `main` then takes the first `max_active` as
the initial active set and spawns them from the main thread (which holds
no lock, so these spawns complete), keeping the remainder in a FIFO
deque. `jobs_lock` is a plain, non-reentrant `threading.Lock`. When a
runner finishes it removes its job from the active list under
`jobs_lock` and releases it, then re-acquires `jobs_lock` and, if the
deque is non-empty, pops the next URL, adds it to `seen` when absent,
and calls `spawn_job` — still holding `jobs_lock`. `spawn_job` itself
does `with jobs_lock: active_jobs.append(job)` before starting the
thread, so this inner acquisition blocks forever: the popped job is
never started, the runner never releases the lock, every later finisher
blocks before its removal, and the main wait loop (which must take
`jobs_lock` to test its exit condition) never exits. The schedule oracle
picks which active job finishes next. -/

/-- `list(dict.fromkeys(urls))`: deduplicate preserving first occurrence. -/
def collectDedup (urls : List String) : List String :=
  urls.foldl (fun acc u => if acc.contains u then acc else acc ++ [u]) []

structure SchedState where
  active : List String     -- URLs of jobs currently running
  remaining : List String  -- the FIFO backlog
  launched : List String   -- every started job's URL, in launch order
  seen : List String       -- the `seen` set
  deadlocked : Bool        -- a thread is blocked re-acquiring `jobs_lock` it holds
deriving DecidableEq, Repr

/-- Initial state: first `maxActive` URLs spawned by the lock-free main
thread, the rest queued (`initial = rooms[:max_active]`,
`remaining = deque(rooms[max_active:])`, `seen = set(initial)`). -/
def initSched (rooms : List String) (maxActive : Nat) : SchedState :=
  { active := rooms.take maxActive
    remaining := rooms.drop maxActive
    launched := rooms.take maxActive
    seen := rooms.take maxActive
    deadlocked := false }

/-- One terminal transition (`_runner` finishing), as the program
executes it: the oracle choice `o` selects the finishing job among the
active ones; it is removed (the Python loop removes the first list entry
with that URL) and the lock is released. With an empty backlog the
re-acquired lock is released again and the transition completes. With a
non-empty backlog the next URL is popped and added to `seen` when new,
but the nested `spawn_job` then blocks forever re-acquiring the
non-reentrant `jobs_lock` the runner still holds: the popped job is
never started and the whole scheduler is frozen from then on (every
path to the shared state goes through `jobs_lock`). -/
def schedStep (st : SchedState) (o : Nat) : SchedState :=
  if st.deadlocked then st
  else if st.active.isEmpty then st
  else
    let url := st.active.getD (o % st.active.length) ""
    let active := st.active.erase url
    match st.remaining with
    | [] => { st with active := active }
    | next :: rest =>
        { active := active
          remaining := rest
          launched := st.launched
          seen := if st.seen.contains next then st.seen else next :: st.seen
          deadlocked := true }

/-- `n` terminal transitions driven by the schedule oracle. -/
def schedRun (oracle : Nat → Nat) : Nat → SchedState → SchedState
  | 0, st => st
  | n + 1, st => schedRun oracle n (schedStep st (oracle n))

/-- The main wait loop exits only when it can take `jobs_lock` and sees
both the active list and the backlog empty. -/
def schedTerminated (st : SchedState) : Bool :=
  !st.deadlocked && st.active.isEmpty && st.remaining.isEmpty

/-! ### Argument-list predicates used to state the codec claims -/

/-- `pairIn args k v`: the flag `k` is immediately followed by value `v`. -/
def pairIn (args : List String) (k v : String) : Bool :=
  (args.zip args.tail).contains (k, v)

/-- The call copies the video stream as-is (`-c:v copy`, or a global `-c copy`). -/
def copiesVideoAsIs (c : FfCall) : Bool :=
  pairIn c.args "-c:v" "copy" || pairIn c.args "-c" "copy"

/-- The call re-encodes the audio stream to AAC at the fixed 128k bitrate. -/
def reencodesAudioAac (c : FfCall) : Bool :=
  pairIn c.args "-c:a" "aac" && pairIn c.args "-b:a" "128k"

/-- The call re-encodes the video stream (libx264). -/
def reencodesVideo (c : FfCall) : Bool :=
  pairIn c.args "-c:v" "libx264"

/-! ## Basic lemmas about the filesystem model -/

theorem fsGet_del_self (fs : FS) (p : FPath) :
    fsGet (fsDel fs p) p = none := by
  induction fs with
  | nil => rfl
  | cons a t ih =>
      by_cases hap : a.1 = p
      · simpa [fsDel, hap] using ih
      · simpa [fsDel, fsGet, hap] using ih

theorem fsGet_del_other (fs : FS) (p q : FPath) (h : q ≠ p) :
    fsGet (fsDel fs p) q = fsGet fs q := by
  induction fs with
  | nil => rfl
  | cons a t ih =>
      by_cases hap : a.1 = p
      · have haq : a.1 ≠ q := by
          rw [hap]; exact fun hc => h hc.symm
        rw [show fsDel (a :: t) p = fsDel t p by simp [fsDel, hap]]
        rw [show fsGet (a :: t) q = fsGet t q by simp [fsGet, haq]]
        exact ih
      · rw [show fsDel (a :: t) p = a :: fsDel t p by simp [fsDel, hap]]
        by_cases haq : a.1 = q
        · rw [show fsGet (a :: fsDel t p) q = some a.2 by simp [fsGet, haq]]
          rw [show fsGet (a :: t) q = some a.2 by simp [fsGet, haq]]
        · rw [show fsGet (a :: fsDel t p) q = fsGet (fsDel t p) q by simp [fsGet, haq]]
          rw [show fsGet (a :: t) q = fsGet t q by simp [fsGet, haq]]
          exact ih

theorem fsGet_set_self (fs : FS) (p : FPath) (i : FileInfo) :
    fsGet (fsSet fs p i) p = some i := by
  simp [fsGet, fsSet]

theorem fsGet_set_other (fs : FS) (p q : FPath) (i : FileInfo) (h : q ≠ p) :
    fsGet (fsSet fs p i) q = fsGet fs q := by
  have hpq : p ≠ q := fun hc => h hc.symm
  simp only [fsSet, fsGet, hpq, if_neg hpq]
  exact fsGet_del_other fs p q h

/-- Appending distinct strings to a common prefix yields distinct strings. -/
theorem str_append_ne (s : String) {a b : String} (h : a ≠ b) : s ++ a ≠ s ++ b := by
  intro he
  apply h
  have hd : (s ++ a).data = (s ++ b).data := congrArg String.data he
  rw [String.data_append, String.data_append] at hd
  have hab : a.data = b.data := List.append_cancel_left hd
  cases a
  cases b
  exact congrArg String.mk hab

/-- The two candidate outputs of a recovery tier pair are distinct paths. -/
theorem withSuffix_mp4_ne_mkv (b : FPath) :
    withSuffix b ".mp4" ≠ withSuffix b ".mkv" := by
  unfold withSuffix
  rw [String.append_assoc, String.append_assoc]
  exact str_append_ne _ (str_append_ne _ (by decide))

/-! ## Lemmas about the ffmpeg wrapper skeleton -/

theorem ffStep_trace (env : Env) (st : St) (call : FfCall) :
    (ffStep env st call).1.trace = st.trace ++ [⟨call, (ffStep env st call).2⟩] := by
  unfold ffStep
  cases h : (env.ff call).exitZero <;> simp [h]

theorem ffStep_net (env : Env) (st : St) (call : FfCall) :
    (ffStep env st call).1.net = st.net := by
  unfold ffStep
  cases h : (env.ff call).exitZero <;> simp [h]

theorem ffStep_ok_exists (env : Env) (st : St) (call : FfCall)
    (h : (ffStep env st call).2 = true) :
    fsExists (ffStep env st call).1.fs call.out = true := by
  unfold ffStep at h ⊢
  cases hz : (env.ff call).exitZero <;> simp [hz] at h ⊢
  exact h

theorem ffStep_fail_not_exists (env : Env) (st : St) (call : FfCall)
    (h : (ffStep env st call).2 = false) :
    fsExists (ffStep env st call).1.fs call.out = false := by
  unfold ffStep at h ⊢
  cases hz : (env.ff call).exitZero <;> simp [hz] at h ⊢
  · simp [fsExists, fsGet_del_self]
  · simpa [fsExists] using h

theorem ffStep_fs_other (env : Env) (st : St) (call : FfCall) (q : FPath)
    (h : q ≠ call.out) :
    fsGet (ffStep env st call).1.fs q = fsGet st.fs q := by
  unfold ffStep
  cases hz : (env.ff call).exitZero <;>
    cases hp : (env.ff call).produced <;>
      simp [hz, hp, fsGet_del_other _ _ _ h, fsGet_set_other _ _ _ _ h]

/-! ## The recovery cascade's call sequence -/

/-- Tier 1 of `finalize_part_file`: remux copy to MP4. -/
def finCall1 (p : FPath) : FfCall :=
  ⟨.remuxCopy, remuxCopyArgs "mp4", p, withSuffix (finalizeOutBase p) ".mp4"⟩

/-- Tier 2 of `finalize_part_file`: remux copy to MKV. -/
def finCall2 (p : FPath) : FfCall :=
  ⟨.remuxCopy, remuxCopyArgs "mkv", p, withSuffix (finalizeOutBase p) ".mkv"⟩

/-- Tier 3 of `finalize_part_file`: full transcode to MP4. -/
def finCall3 (p : FPath) : FfCall :=
  ⟨.transcodeAR, transcodeArArgs "mp4", p, withSuffix (finalizeOutBase p) ".mp4"⟩

/-- Tier 4 of `finalize_part_file`: full transcode to MKV. -/
def finCall4 (p : FPath) : FfCall :=
  ⟨.transcodeAR, transcodeArArgs "mkv", p, withSuffix (finalizeOutBase p) ".mkv"⟩

/-- The ffmpeg invocations (with their reported results) of one
`finalize_part_file` run. -/
def finTrace (env : Env) (fs : FS) (p : FPath) : List TraceEntry :=
  (finalize_part_file env fs p).1.trace

theorem remux_copy_trace (env : Env) (st : St) (src dst container : FPath) :
    (remux_copy env st src dst container).1.trace
      = st.trace ++ [⟨⟨.remuxCopy, remuxCopyArgs container, src,
          withSuffix dst ("." ++ container)⟩, (remux_copy env st src dst container).2⟩] :=
  ffStep_trace env st _

theorem transcode_trace (env : Env) (st : St) (src dst container : FPath) :
    (transcode_preserve_ar env st src dst container).1.trace
      = st.trace ++ [⟨⟨.transcodeAR, transcodeArArgs container, src,
          withSuffix dst ("." ++ container)⟩, (transcode_preserve_ar env st src dst container).2⟩] :=
  ffStep_trace env st _

theorem dot_mp4 : ("." ++ "mp4" : String) = ".mp4" := by decide

theorem dot_mkv : ("." ++ "mkv" : String) = ".mkv" := by decide

/-- A `finalize_part_file` run issues one of exactly five call sequences:
the cascade prefix ending at the first successful tier, or all four
tiers failed. -/
theorem finalize_trace_shape (env : Env) (fs : FS) (p : FPath) :
    finTrace env fs p = [⟨finCall1 p, true⟩]
    ∨ finTrace env fs p = [⟨finCall1 p, false⟩, ⟨finCall2 p, true⟩]
    ∨ finTrace env fs p
        = [⟨finCall1 p, false⟩, ⟨finCall2 p, false⟩, ⟨finCall3 p, true⟩]
    ∨ finTrace env fs p
        = [⟨finCall1 p, false⟩, ⟨finCall2 p, false⟩, ⟨finCall3 p, false⟩, ⟨finCall4 p, true⟩]
    ∨ finTrace env fs p
        = [⟨finCall1 p, false⟩, ⟨finCall2 p, false⟩, ⟨finCall3 p, false⟩, ⟨finCall4 p, false⟩] := by
  unfold finTrace finalize_part_file
  dsimp only
  generalize hr1 : remux_copy env ⟨fs, [], []⟩ p (finalizeOutBase p) "mp4" = r1
  obtain ⟨s1, ok1⟩ := r1
  have ht1 : s1.trace = [⟨finCall1 p, ok1⟩] := by
    have h := remux_copy_trace env ⟨fs, [], []⟩ p (finalizeOutBase p) "mp4"
    rw [hr1, dot_mp4] at h
    simpa [finCall1] using h
  dsimp only
  cases ok1 with
  | true =>
      rw [if_pos rfl]
      exact Or.inl ht1
  | false =>
      rw [if_neg (by simp)]
      generalize hr2 : remux_copy env s1 p (finalizeOutBase p) "mkv" = r2
      obtain ⟨s2, ok2⟩ := r2
      have ht2 : s2.trace = [⟨finCall1 p, false⟩, ⟨finCall2 p, ok2⟩] := by
        have h := remux_copy_trace env s1 p (finalizeOutBase p) "mkv"
        rw [hr2, dot_mkv, ht1] at h
        simpa [finCall2] using h
      dsimp only
      cases ok2 with
      | true =>
          rw [if_pos rfl]
          exact Or.inr (Or.inl ht2)
      | false =>
          rw [if_neg (by simp)]
          generalize hr3 : transcode_preserve_ar env s2 p (finalizeOutBase p) "mp4" = r3
          obtain ⟨s3, ok3⟩ := r3
          have ht3 : s3.trace
              = [⟨finCall1 p, false⟩, ⟨finCall2 p, false⟩, ⟨finCall3 p, ok3⟩] := by
            have h := transcode_trace env s2 p (finalizeOutBase p) "mp4"
            rw [hr3, dot_mp4, ht2] at h
            simpa [finCall3] using h
          dsimp only
          cases ok3 with
          | true =>
              rw [if_pos rfl]
              exact Or.inr (Or.inr (Or.inl ht3))
          | false =>
              rw [if_neg (by simp)]
              generalize hr4 : transcode_preserve_ar env s3 p (finalizeOutBase p) "mkv" = r4
              obtain ⟨s4, ok4⟩ := r4
              have ht4 : s4.trace
                  = [⟨finCall1 p, false⟩, ⟨finCall2 p, false⟩, ⟨finCall3 p, false⟩,
                     ⟨finCall4 p, ok4⟩] := by
                have h := transcode_trace env s3 p (finalizeOutBase p) "mkv"
                rw [hr4, dot_mkv, ht3] at h
                simpa [finCall4] using h
              dsimp only
              cases ok4 with
              | true =>
                  rw [if_pos rfl]
                  exact Or.inr (Or.inr (Or.inr (Or.inl ht4)))
              | false =>
                  rw [if_neg (by simp)]
                  exact Or.inr (Or.inr (Or.inr (Or.inr ht4)))

/-! ## Concrete scenario environments and filesystems -/

/-- Every ffmpeg call succeeds and produces a 5-byte output; the probe
rejects; the upload succeeds. -/
def envAllOk : Env := ⟨fun _ => ⟨true, some 5⟩, fun _ => false, .ok⟩

/-- Every ffmpeg call "succeeds" but leaves an empty (0-byte) output;
the upload fails with a server error. -/
def envEmptyOut : Env := ⟨fun _ => ⟨true, some 0⟩, fun _ => false, .httpError 500⟩

/-- The MP4-remux tier fails; the MKV-remux tier succeeds. -/
def envMkvOnly : Env :=
  ⟨fun c => if c.out = "d/v.mkv" then ⟨true, some 5⟩ else ⟨false, none⟩,
   fun _ => false, .ok⟩

/-- Conversion succeeds but the upload fails with a server error. -/
def envConvUploadFail : Env := ⟨fun _ => ⟨true, some 5⟩, fun _ => false, .httpError 500⟩

/-- The probe accepts the file as already-streamable MP4; upload succeeds. -/
def envStreamable : Env := ⟨fun _ => ⟨true, some 5⟩, fun _ => true, .ok⟩

/-- A stable 10 MiB partial next to a pre-existing 7 MiB final file. -/
def fsPartialAndFinal : FS :=
  [("d/v.mp4.part", ⟨10485760, 0⟩), ("d/v.mp4", ⟨7340032, 0⟩)]

/-- A single 200 MiB ready file. -/
def fsBigReady : FS := [("d/big.mp4", ⟨209715200, 0⟩)]

/-- A single 10 MiB `.mkv` file, which the bot path must convert. -/
def fsMkvReady : FS := [("d/w.mkv", ⟨10485760, 0⟩)]

/-- C2: the Recovery Engine's finalize is an ordered cascade over a
partial file that stops at the first successful tier: whenever a
remux-copy tier succeeds, no full re-encode call appears in the run's
call sequence, and every call except the last one in the sequence had
failed (no tier is attempted after a success). -/
theorem C2_cascade_stops_at_first_success (env : Env) (fs : FS) (p : FPath) :
    ((∃ e ∈ finTrace env fs p, e.call.mode = FfMode.remuxCopy ∧ e.ok = true) →
        ∀ e ∈ finTrace env fs p, e.call.mode ≠ FfMode.transcodeAR)
    ∧ (∀ e ∈ (finTrace env fs p).dropLast, e.ok = false) := by
  rcases finalize_trace_shape env fs p with h | h | h | h | h <;>
    rw [h] <;>
    constructor <;>
    first
      | (intro hex
         exfalso
         simp [finCall1, finCall2, finCall3, finCall4] at hex
         done)
      | (intro hex
         simp [finCall1, finCall2, finCall3, finCall4, List.forall_mem_cons]
         done)
      | simp [List.forall_mem_cons, List.dropLast]

/-- Witness for C2 at a concrete run in which the first remux tier
succeeds: the trace is that single remux call, which is no re-encode. -/
theorem C2_cascade_stops_witness :
    (finCall1 "d/v.mp4.part").mode ≠ FfMode.transcodeAR :=
  (C2_cascade_stops_at_first_success envAllOk fsPartialAndFinal "d/v.mp4.part").1
    ⟨⟨finCall1 "d/v.mp4.part", true⟩, by decide, by decide⟩
    ⟨finCall1 "d/v.mp4.part", true⟩ (by decide)

/-! ## The upload-conversion cascade's call sequence -/

/-- Tier 1 of `ensure_streamable_mp4`: remux copy to MP4. -/
def ensCall1 (fs : FS) (now : Int) (src : FPath) : FfCall :=
  ⟨.remuxCopy, remuxToMp4CopyArgs, src, ensureTarget fs now src⟩

/-- Tier 2 of `ensure_streamable_mp4`: copy video, re-encode audio to AAC. -/
def ensCall2 (fs : FS) (now : Int) (src : FPath) : FfCall :=
  ⟨.copyVaac, copyVaacArgs, src, ensureTarget fs now src⟩

/-- Tier 3 of `ensure_streamable_mp4`: full transcode to MP4. -/
def ensCall3 (src : FPath) : FfCall :=
  ⟨.transcodeAR, transcodeArArgs "mp4", src, withSuffix (withSuffix src "") ".mp4"⟩

/-- The ffmpeg invocations (with their reported results) of one
`ensure_streamable_mp4` run started on a clean trace. -/
def ensTrace (env : Env) (fs : FS) (now : Int) (src : FPath) : List TraceEntry :=
  (ensure_streamable_mp4 env ⟨fs, [], []⟩ now src).1.trace

/-- An `ensure_streamable_mp4` run issues one of exactly five call
sequences: none (already streamable), or the cascade prefix ending at
the first successful tier, or all three tiers failed. -/
theorem ensure_trace_shape (env : Env) (fs : FS) (now : Int) (src : FPath) :
    ensTrace env fs now src = []
    ∨ ensTrace env fs now src = [⟨ensCall1 fs now src, true⟩]
    ∨ ensTrace env fs now src = [⟨ensCall1 fs now src, false⟩, ⟨ensCall2 fs now src, true⟩]
    ∨ ensTrace env fs now src
        = [⟨ensCall1 fs now src, false⟩, ⟨ensCall2 fs now src, false⟩, ⟨ensCall3 src, true⟩]
    ∨ ensTrace env fs now src
        = [⟨ensCall1 fs now src, false⟩, ⟨ensCall2 fs now src, false⟩, ⟨ensCall3 src, false⟩] := by
  unfold ensTrace ensure_streamable_mp4
  cases hp : env.isMp4H264Aac src with
  | true =>
      rw [if_pos rfl]
      exact Or.inl rfl
  | false =>
      rw [if_neg (by simp)]
      dsimp only
      generalize hr1 : remux_to_mp4_copy env ⟨fs, [], []⟩ src (ensureTarget fs now src) = r1
      obtain ⟨s1, ok1⟩ := r1
      have ht1 : s1.trace = [⟨ensCall1 fs now src, ok1⟩] := by
        have h := ffStep_trace env ⟨fs, [], []⟩
          ⟨.remuxCopy, remuxToMp4CopyArgs, src, ensureTarget fs now src⟩
        rw [show ffStep env ⟨fs, [], []⟩
              ⟨.remuxCopy, remuxToMp4CopyArgs, src, ensureTarget fs now src⟩
            = remux_to_mp4_copy env ⟨fs, [], []⟩ src (ensureTarget fs now src) from rfl, hr1] at h
        simpa [ensCall1] using h
      dsimp only
      cases ok1 with
      | true =>
          rw [if_pos rfl]
          exact Or.inr (Or.inl ht1)
      | false =>
          rw [if_neg (by simp)]
          generalize hr2 : remux_to_mp4_copy_v_copy_aac env s1 src (ensureTarget fs now src) = r2
          obtain ⟨s2, ok2⟩ := r2
          have ht2 : s2.trace = [⟨ensCall1 fs now src, false⟩, ⟨ensCall2 fs now src, ok2⟩] := by
            have h := ffStep_trace env s1
              ⟨.copyVaac, copyVaacArgs, src, ensureTarget fs now src⟩
            rw [show ffStep env s1 ⟨.copyVaac, copyVaacArgs, src, ensureTarget fs now src⟩
                = remux_to_mp4_copy_v_copy_aac env s1 src (ensureTarget fs now src) from rfl,
              hr2, ht1] at h
            simpa [ensCall2] using h
          dsimp only
          cases ok2 with
          | true =>
              rw [if_pos rfl]
              exact Or.inr (Or.inr (Or.inl ht2))
          | false =>
              rw [if_neg (by simp)]
              generalize hr3 : transcode_preserve_ar env s2 src (withSuffix src "") "mp4" = r3
              obtain ⟨s3, ok3⟩ := r3
              have ht3 : s3.trace
                  = [⟨ensCall1 fs now src, false⟩, ⟨ensCall2 fs now src, false⟩,
                     ⟨ensCall3 src, ok3⟩] := by
                have h := transcode_trace env s2 src (withSuffix src "") "mp4"
                rw [hr3, dot_mp4, ht2] at h
                simpa [ensCall3] using h
              dsimp only
              cases ok3 with
              | true =>
                  rw [if_pos rfl]
                  exact Or.inr (Or.inr (Or.inr (Or.inl ht3)))
              | false =>
                  rw [if_neg (by simp)]
                  exact Or.inr (Or.inr (Or.inr (Or.inr ht3)))

/-- C8 counterexample: in the recovery cascade (`finalize_part_file`),
when the remux-copy-to-MP4 tier fails, the tier tried next — before any
full re-encode — is the remux-copy-to-MKV call, whose arguments are the
pure stream copy `-c copy`: it does not re-encode the audio stream. -/
theorem C8_counterexample :
    finTrace envMkvOnly fsPartialAndFinal "d/v.mp4.part"
      = [⟨finCall1 "d/v.mp4.part", false⟩, ⟨finCall2 "d/v.mp4.part", true⟩]
    ∧ (finCall2 "d/v.mp4.part").args = ["-c", "copy"]
    ∧ reencodesAudioAac (finCall2 "d/v.mp4.part") = false
    ∧ (finCall2 "d/v.mp4.part").mode ≠ FfMode.transcodeAR := by
  decide

/-- C8 (amended): the copy-video/re-encode-audio tier belongs to the
upload-side conversion cascade (`ensure_streamable_mp4`): there, in any
run whose call sequence has a second call (so the first, remux-copy,
call failed), that second call copies the video stream as-is and
re-encodes only the audio stream to fixed AAC 128k, and every later
call (the full re-encode) comes after it. -/
theorem C8_upload_cascade_audio_repair (env : Env) (fs : FS) (now : Int) (src : FPath) :
    ∀ e0 e1 rest, ensTrace env fs now src = e0 :: e1 :: rest →
      e0.ok = false
      ∧ e0.call.mode = FfMode.remuxCopy
      ∧ copiesVideoAsIs e1.call = true
      ∧ reencodesAudioAac e1.call = true
      ∧ reencodesVideo e1.call = false
      ∧ e1.call.mode = FfMode.copyVaac
      ∧ (∀ e ∈ rest, e.call.mode = FfMode.transcodeAR) := by
  intro e0 e1 rest heq
  rcases ensure_trace_shape env fs now src with h | h | h | h | h <;> rw [h] at heq
  · exact absurd heq (by simp)
  · exact absurd heq (by simp)
  all_goals
    simp only [List.cons.injEq] at heq
  all_goals
    obtain ⟨rfl, rfl, rfl⟩ := heq
  all_goals
    refine ⟨rfl, rfl, by rfl, by rfl, by rfl, rfl, ?_⟩
  all_goals
    simp [ensCall3, List.forall_mem_cons]

/-- Witness for the amended C8 at a concrete run: the source `.mkv`
is not streamable, the first remux fails, and the second call is the
audio-repair call. -/
theorem C8_upload_cascade_witness :
    copiesVideoAsIs (ensCall2 fsMkvReady 999 "d/w.mkv") = true :=
  (C8_upload_cascade_audio_repair
      (Env.mk (fun c => if c.mode = FfMode.copyVaac then ⟨true, some 5⟩ else ⟨false, none⟩)
        (fun _ => false) .ok)
      fsMkvReady 999 "d/w.mkv"
      ⟨ensCall1 fsMkvReady 999 "d/w.mkv", false⟩
      ⟨ensCall2 fsMkvReady 999 "d/w.mkv", true⟩
      [] (by decide)).2.2.1

/-! ## Filesystem effects of the recovery cascade -/

theorem remux_copy_ok_exists (env : Env) (st : St) (src dst container : FPath)
    (h : (remux_copy env st src dst container).2 = true) :
    fsExists (remux_copy env st src dst container).1.fs
      (withSuffix dst ("." ++ container)) = true :=
  ffStep_ok_exists env st _ h

theorem transcode_ok_exists (env : Env) (st : St) (src dst container : FPath)
    (h : (transcode_preserve_ar env st src dst container).2 = true) :
    fsExists (transcode_preserve_ar env st src dst container).1.fs
      (withSuffix dst ("." ++ container)) = true :=
  ffStep_ok_exists env st _ h

theorem transcode_fail_not_exists (env : Env) (st : St) (src dst container : FPath)
    (h : (transcode_preserve_ar env st src dst container).2 = false) :
    fsExists (transcode_preserve_ar env st src dst container).1.fs
      (withSuffix dst ("." ++ container)) = false :=
  ffStep_fail_not_exists env st _ h

theorem transcode_fs_other (env : Env) (st : St) (src dst container : FPath) (q : FPath)
    (h : q ≠ withSuffix dst ("." ++ container)) :
    fsGet (transcode_preserve_ar env st src dst container).1.fs q = fsGet st.fs q :=
  ffStep_fs_other env st _ q h

/-- `finalize_part_file` either returns one of the two fixed candidate
output paths (derived from the partial's name alone) with that file
present, or returns nothing with neither candidate output present. -/
theorem finalize_fs_spec (env : Env) (fs : FS) (p : FPath) :
    ((finalize_part_file env fs p).2 = none →
        fsExists (finalize_part_file env fs p).1.fs
            (withSuffix (finalizeOutBase p) ".mp4") = false
        ∧ fsExists (finalize_part_file env fs p).1.fs
            (withSuffix (finalizeOutBase p) ".mkv") = false)
    ∧ (∀ out, (finalize_part_file env fs p).2 = some out →
        (out = withSuffix (finalizeOutBase p) ".mp4"
            ∨ out = withSuffix (finalizeOutBase p) ".mkv")
        ∧ fsExists (finalize_part_file env fs p).1.fs out = true) := by
  unfold finalize_part_file
  dsimp only
  generalize hr1 : remux_copy env ⟨fs, [], []⟩ p (finalizeOutBase p) "mp4" = r1
  obtain ⟨s1, ok1⟩ := r1
  have he1 := remux_copy_ok_exists env ⟨fs, [], []⟩ p (finalizeOutBase p) "mp4"
  rw [hr1, dot_mp4] at he1
  dsimp only
  cases ok1 with
  | true =>
      rw [if_pos rfl]
      dsimp only
      refine ⟨fun hnone => (nomatch hnone), fun out hout => ?_⟩
      injection hout with hxo
      subst hxo
      exact ⟨Or.inl rfl, he1 rfl⟩
  | false =>
      rw [if_neg (by simp)]
      generalize hr2 : remux_copy env s1 p (finalizeOutBase p) "mkv" = r2
      obtain ⟨s2, ok2⟩ := r2
      have he2 := remux_copy_ok_exists env s1 p (finalizeOutBase p) "mkv"
      rw [hr2, dot_mkv] at he2
      dsimp only
      cases ok2 with
      | true =>
          rw [if_pos rfl]
          dsimp only
          refine ⟨fun hnone => (nomatch hnone), fun out hout => ?_⟩
          injection hout with hxo
          subst hxo
          exact ⟨Or.inr rfl, he2 rfl⟩
      | false =>
          rw [if_neg (by simp)]
          generalize hr3 : transcode_preserve_ar env s2 p (finalizeOutBase p) "mp4" = r3
          obtain ⟨s3, ok3⟩ := r3
          have he3 := transcode_ok_exists env s2 p (finalizeOutBase p) "mp4"
          have hf3 := transcode_fail_not_exists env s2 p (finalizeOutBase p) "mp4"
          rw [hr3, dot_mp4] at he3 hf3
          dsimp only
          cases ok3 with
          | true =>
              rw [if_pos rfl]
              dsimp only
              refine ⟨fun hnone => (nomatch hnone), fun out hout => ?_⟩
              injection hout with hxo
              subst hxo
              exact ⟨Or.inl rfl, he3 rfl⟩
          | false =>
              rw [if_neg (by simp)]
              generalize hr4 : transcode_preserve_ar env s3 p (finalizeOutBase p) "mkv" = r4
              obtain ⟨s4, ok4⟩ := r4
              have he4 := transcode_ok_exists env s3 p (finalizeOutBase p) "mkv"
              have hf4 := transcode_fail_not_exists env s3 p (finalizeOutBase p) "mkv"
              have ho4 := transcode_fs_other env s3 p (finalizeOutBase p) "mkv"
                (withSuffix (finalizeOutBase p) ".mp4")
                (by rw [dot_mkv]; exact withSuffix_mp4_ne_mkv _)
              rw [hr4, dot_mkv] at he4 hf4
              rw [hr4] at ho4
              dsimp only
              cases ok4 with
              | true =>
                  rw [if_pos rfl]
                  dsimp only
                  refine ⟨fun hnone => (nomatch hnone), fun out hout => ?_⟩
                  injection hout with hxo
                  subst hxo
                  exact ⟨Or.inr rfl, he4 rfl⟩
              | false =>
                  rw [if_neg (by simp)]
                  dsimp only
                  refine ⟨fun _ => ⟨?_, hf4 rfl⟩, fun out hout => nomatch hout⟩
                  unfold fsExists at hf3 ⊢
                  rw [show fsGet s4.fs (withSuffix (finalizeOutBase p) ".mp4")
                      = fsGet s3.fs (withSuffix (finalizeOutBase p) ".mp4") from ho4]
                  exact hf3 rfl

/-- In `recover_partials`' per-file processing, the source partial is
unlinked only in the branch whose guard has just confirmed that the
finalize output exists; in every other branch the result is `none`. -/
theorem recover_one_some_exists (cfg : Cfg) (env : Env) (fs : FS) (now : Int) (pf : FPath)
    (hne1 : pf ≠ withSuffix (finalizeOutBase pf) ".mp4")
    (hne2 : pf ≠ withSuffix (finalizeOutBase pf) ".mkv") :
    ∀ fsOut out, recover_one cfg env fs now pf = (fsOut, some out) →
      fsExists fsOut out = true := by
  intro fsOut out h
  unfold recover_one at h
  cases hg : fsGet fs pf with
  | none =>
      rw [hg] at h
      exact absurd (congrArg Prod.snd h) (by simp)
  | some info =>
      rw [hg] at h
      dsimp only at h
      by_cases hage : now - info.mtime < cfg.partStableAge
      · rw [if_pos hage] at h
        exact absurd (congrArg Prod.snd h) (by simp)
      · rw [if_neg hage] at h
        by_cases hsize : info.size < cfg.partMinMB * 1024 * 1024
        · rw [if_pos hsize] at h
          exact absurd (congrArg Prod.snd h) (by simp)
        · rw [if_neg hsize] at h
          rcases hrf : finalize_part_file env fs pf with ⟨stf, resf⟩
          rw [hrf] at h
          dsimp only at h
          cases resf with
          | none =>
              dsimp only at h
              by_cases hmv : cfg.moveBadParts = true
              · rw [if_pos hmv] at h
                cases hq : fsGet stf.fs pf <;> rw [hq] at h <;>
                  exact absurd (congrArg Prod.snd h) (by simp)
              · rw [if_neg hmv] at h
                exact absurd (congrArg Prod.snd h) (by simp)
          | some o =>
              dsimp only at h
              by_cases hex : fsExists stf.fs o = true
              · rw [if_pos hex] at h
                have hfs := congrArg Prod.fst h
                have hsnd := congrArg Prod.snd h
                dsimp only at hfs hsnd
                injection hsnd with ho
                subst ho
                subst hfs
                have hspec := (finalize_fs_spec env fs pf).2 o (by rw [hrf])
                have hop : o ≠ pf := by
                  rcases hspec.1 with rfl | rfl
                  · exact fun hc => hne1 hc.symm
                  · exact fun hc => hne2 hc.symm
                unfold fsExists at hex ⊢
                rw [fsGet_del_other _ _ _ hop]
                exact hex
              · rw [if_neg hex] at h
                by_cases hmv : cfg.moveBadParts = true
                · rw [if_pos hmv] at h
                  cases hq : fsGet stf.fs pf <;> rw [hq] at h <;>
                    exact absurd (congrArg Prod.snd h) (by simp)
                · rw [if_neg hmv] at h
                  exact absurd (congrArg Prod.snd h) (by simp)

/-- C3 counterexample: a stable 10 MiB partial `d/v.mp4.part` sits next
to a pre-existing final file `d/v.mp4` of 7 MiB; the remux tier "succeeds"
with an empty output. `recover_partials`' per-file processing then returns
the pre-existing final name (no timestamp-suffixed alternate, no no-op),
the final file's content has been replaced by the 0-byte output, and the
source partial has been removed even though the new file is empty. -/
theorem C3_counterexample :
    fsGet fsPartialAndFinal "d/v.mp4" = some ⟨7340032, 0⟩
    ∧ (recover_one defaultCfg envEmptyOut fsPartialAndFinal 1000000 "d/v.mp4.part").2
        = some "d/v.mp4"
    ∧ fsGet (recover_one defaultCfg envEmptyOut fsPartialAndFinal 1000000 "d/v.mp4.part").1
        "d/v.mp4" = some ⟨0, 0⟩
    ∧ fsGet (recover_one defaultCfg envEmptyOut fsPartialAndFinal 1000000 "d/v.mp4.part").1
        "d/v.mp4.part" = none := by
  decide

/-- C3 (amended): every recovery tier writes its output to one of the
two fixed paths derived from the partial's name (strip `.part`,
normalise the extension to `.mp4`/`.mkv`) — not to a fresh,
collision-avoiding path, so a pre-existing final file of that name is
overwritten; the source partial is removed only after the finalize
output has been confirmed to exist (emptiness is not checked); and a
run in which every tier fails leaves no file at either candidate output
path. -/
theorem C3_recovery_output_discipline (cfg : Cfg) (env : Env) (fs : FS) (now : Int) (pf : FPath)
    (hne1 : pf ≠ withSuffix (finalizeOutBase pf) ".mp4")
    (hne2 : pf ≠ withSuffix (finalizeOutBase pf) ".mkv") :
    (∀ fsOut out, recover_one cfg env fs now pf = (fsOut, some out) →
        fsExists fsOut out = true)
    ∧ (∀ out, (finalize_part_file env fs pf).2 = some out →
        out = withSuffix (finalizeOutBase pf) ".mp4"
          ∨ out = withSuffix (finalizeOutBase pf) ".mkv")
    ∧ ((finalize_part_file env fs pf).2 = none →
        fsExists (finalize_part_file env fs pf).1.fs
            (withSuffix (finalizeOutBase pf) ".mp4") = false
        ∧ fsExists (finalize_part_file env fs pf).1.fs
            (withSuffix (finalizeOutBase pf) ".mkv") = false) :=
  ⟨recover_one_some_exists cfg env fs now pf hne1 hne2,
   fun out h => ((finalize_fs_spec env fs pf).2 out h).1,
   (finalize_fs_spec env fs pf).1⟩

/-- Witness for the amended C3 at the concrete overwrite scenario: the
returned output exists in the resulting filesystem. -/
theorem C3_recovery_output_witness :
    fsExists [("d/v.mp4", ⟨0, 0⟩)] "d/v.mp4" = true :=
  (C3_recovery_output_discipline defaultCfg envEmptyOut fsPartialAndFinal 1000000
      "d/v.mp4.part" (by decide) (by decide)).1 [("d/v.mp4", ⟨0, 0⟩)] "d/v.mp4" (by decide)

/-! ## Network calls of the delivery path -/

/-- The conversion step performs no network call. -/
theorem ensure_net (env : Env) (st : St) (now : Int) (src : FPath) :
    (ensure_streamable_mp4 env st now src).1.net = st.net := by
  unfold ensure_streamable_mp4
  cases hp : env.isMp4H264Aac src with
  | true => rw [if_pos rfl]
  | false =>
      rw [if_neg (by simp)]
      dsimp only
      generalize hr1 : remux_to_mp4_copy env st src (ensureTarget st.fs now src) = r1
      obtain ⟨s1, ok1⟩ := r1
      have hn1 : s1.net = st.net := by
        have h := ffStep_net env st ⟨.remuxCopy, remuxToMp4CopyArgs, src, ensureTarget st.fs now src⟩
        rw [show ffStep env st ⟨.remuxCopy, remuxToMp4CopyArgs, src, ensureTarget st.fs now src⟩
            = remux_to_mp4_copy env st src (ensureTarget st.fs now src) from rfl, hr1] at h
        exact h
      dsimp only
      cases ok1 with
      | true => rw [if_pos rfl]; exact hn1
      | false =>
          rw [if_neg (by simp)]
          generalize hr2 : remux_to_mp4_copy_v_copy_aac env s1 src (ensureTarget st.fs now src) = r2
          obtain ⟨s2, ok2⟩ := r2
          have hn2 : s2.net = st.net := by
            have h := ffStep_net env s1 ⟨.copyVaac, copyVaacArgs, src, ensureTarget st.fs now src⟩
            rw [show ffStep env s1 ⟨.copyVaac, copyVaacArgs, src, ensureTarget st.fs now src⟩
                = remux_to_mp4_copy_v_copy_aac env s1 src (ensureTarget st.fs now src) from rfl,
              hr2] at h
            rw [h]
            exact hn1
          dsimp only
          cases ok2 with
          | true => rw [if_pos rfl]; exact hn2
          | false =>
              rw [if_neg (by simp)]
              generalize hr3 : transcode_preserve_ar env s2 src (withSuffix src "") "mp4" = r3
              obtain ⟨s3, ok3⟩ := r3
              have hn3 : s3.net = st.net := by
                have h := ffStep_net env s2
                  ⟨.transcodeAR, transcodeArArgs "mp4", src,
                    withSuffix (withSuffix src "") ("." ++ "mp4")⟩
                rw [show ffStep env s2 ⟨.transcodeAR, transcodeArArgs "mp4", src,
                      withSuffix (withSuffix src "") ("." ++ "mp4")⟩
                    = transcode_preserve_ar env s2 src (withSuffix src "") "mp4" from rfl,
                  hr3] at h
                rw [h]
                exact hn2
              dsimp only
              cases ok3 with
              | true => rw [if_pos rfl]; exact hn3
              | false => rw [if_neg (by simp)]; exact hn3

/-- One bot-transport request, and nothing else, leaves `upload_via_bot`. -/
theorem upload_net (env : Env) (fs : FS) (now : Int) (p : FPath) :
    (upload_via_bot env ⟨fs, [], []⟩ now p).1.net
      = [⟨Transport.botHTTP, (ensure_streamable_mp4 env ⟨fs, [], []⟩ now p).2.1⟩] := by
  unfold upload_via_bot
  dsimp only
  have hn := ensure_net env ⟨fs, [], []⟩ now p
  cases hu : env.upload <;> simp [hu, hn]

/-- C1 counterexample: a 200 MiB READY artifact — above the spec's
190 MiB lightweight ceiling — is still routed through the (lightweight)
bot HTTP transport; no high-capacity transport call occurs anywhere, so
it is not "sent directly through the high-capacity transport". -/
theorem C1_counterexample :
    fsGet fsBigReady "d/big.mp4" = some ⟨209715200, 0⟩
    ∧ 190 * 1024 * 1024 < 209715200
    ∧ sendOneTransports defaultCfg envStreamable fsBigReady 0 "d/big.mp4"
        = [Transport.botHTTP]
    ∧ Transport.highCapacity ∉
        sendOneTransports defaultCfg envStreamable fsBigReady 0 "d/big.mp4" := by
  decide

/-- C1 (amended): `send_one` makes exactly one transport attempt for
every artifact — through the bot HTTP transport — regardless of the
artifact's size: the code has no size-based tier selection and no
high-capacity transport. -/
theorem C1_delivery_always_bot (cfg : Cfg) (env : Env) (fs : FS) (now : Int) (p : FPath) :
    sendOneTransports cfg env fs now p = [Transport.botHTTP] := by
  unfold sendOneTransports send_one
  dsimp only
  generalize hr : upload_via_bot env ⟨fs, [], []⟩ now p = r
  obtain ⟨st', ok⟩ := r
  have hnet := upload_net env fs now p
  rw [hr] at hnet
  dsimp only at hnet
  cases hc : (ok && cfg.deleteAfterSend) with
  | true => rw [if_pos rfl]; simp [hnet]
  | false => rw [if_neg (by simp)]; simp [hnet]

/-- C6: `is_stable` returns true iff the entry currently exists and
`now - last_modified_time >= min_age`; a vanished entry yields false
rather than an error. -/
theorem C6_is_stable_iff (fs : FS) (now : Int) (p : FPath) (minAge : Int) :
    is_stable fs now p minAge = true
      ↔ ∃ i, fsGet fs p = some i ∧ now - i.mtime ≥ minAge := by
  unfold is_stable
  cases h : fsGet fs p <;> simp [h]

/-! ## Temporaries of the upload conversion -/

/-- Every temporary returned by `ensure_streamable_mp4` exists in the
post-conversion filesystem (it is appended only after the producing tier
reported success, i.e. after `out.exists()` held). -/
theorem ensure_temps_exist (env : Env) (st : St) (now : Int) (src : FPath) :
    ∀ t ∈ (ensure_streamable_mp4 env st now src).2.2,
      fsExists (ensure_streamable_mp4 env st now src).1.fs t = true := by
  unfold ensure_streamable_mp4
  cases hp : env.isMp4H264Aac src with
  | true => rw [if_pos rfl]; intro t ht; cases ht
  | false =>
      rw [if_neg (by simp)]
      dsimp only
      generalize hr1 : remux_to_mp4_copy env st src (ensureTarget st.fs now src) = r1
      obtain ⟨s1, ok1⟩ := r1
      have he1 := ffStep_ok_exists env st ⟨.remuxCopy, remuxToMp4CopyArgs, src, ensureTarget st.fs now src⟩
      rw [show ffStep env st ⟨.remuxCopy, remuxToMp4CopyArgs, src, ensureTarget st.fs now src⟩
          = remux_to_mp4_copy env st src (ensureTarget st.fs now src) from rfl, hr1] at he1
      dsimp only
      cases ok1 with
      | true =>
          rw [if_pos rfl]
          intro t ht
          obtain rfl : t = ensureTarget st.fs now src := by simpa using ht
          exact he1 rfl
      | false =>
          rw [if_neg (by simp)]
          generalize hr2 : remux_to_mp4_copy_v_copy_aac env s1 src (ensureTarget st.fs now src) = r2
          obtain ⟨s2, ok2⟩ := r2
          have he2 := ffStep_ok_exists env s1 ⟨.copyVaac, copyVaacArgs, src, ensureTarget st.fs now src⟩
          rw [show ffStep env s1 ⟨.copyVaac, copyVaacArgs, src, ensureTarget st.fs now src⟩
              = remux_to_mp4_copy_v_copy_aac env s1 src (ensureTarget st.fs now src) from rfl,
            hr2] at he2
          dsimp only
          cases ok2 with
          | true =>
              rw [if_pos rfl]
              intro t ht
              obtain rfl : t = ensureTarget st.fs now src := by simpa using ht
              exact he2 rfl
          | false =>
              rw [if_neg (by simp)]
              generalize hr3 : transcode_preserve_ar env s2 src (withSuffix src "") "mp4" = r3
              obtain ⟨s3, ok3⟩ := r3
              have he3 := transcode_ok_exists env s2 src (withSuffix src "") "mp4"
              rw [hr3, dot_mp4] at he3
              dsimp only
              cases ok3 with
              | true =>
                  rw [if_pos rfl]
                  intro t ht
                  obtain rfl : t = withSuffix (withSuffix src "") ".mp4" := by simpa using ht
                  exact he3 rfl
              | false =>
                  rw [if_neg (by simp)]
                  intro t ht
                  cases ht

/-- A failed upload leaves the post-conversion filesystem untouched:
the temporary-cleanup loop runs only in the success branch. -/
theorem upload_fail_fs (env : Env) (fs : FS) (now : Int) (p : FPath)
    (h : (upload_via_bot env ⟨fs, [], []⟩ now p).2 = false) :
    (upload_via_bot env ⟨fs, [], []⟩ now p).1.fs
      = (ensure_streamable_mp4 env ⟨fs, [], []⟩ now p).1.fs := by
  unfold upload_via_bot at h ⊢
  dsimp only at h ⊢
  cases hu : env.upload <;> simp [hu] at h ⊢

/-- C10: if `upload_via_bot` had to convert its input (so the conversion
produced temporaries) and the upload then fails (non-2xx or exception),
every converted file remains on disk — and `send_one` does not remove it
either: temporaries are deleted only in the success branch. -/
theorem C10_temps_survive_failed_upload (cfg : Cfg) (env : Env) (fs : FS) (now : Int) (p : FPath) :
    ((upload_via_bot env ⟨fs, [], []⟩ now p).2 = false →
      ∀ t ∈ (ensure_streamable_mp4 env ⟨fs, [], []⟩ now p).2.2,
        fsExists (upload_via_bot env ⟨fs, [], []⟩ now p).1.fs t = true)
    ∧ ((send_one cfg env fs now p).2 = false →
      ∀ t ∈ (ensure_streamable_mp4 env ⟨fs, [], []⟩ now p).2.2,
        fsExists (send_one cfg env fs now p).1.fs t = true) := by
  constructor
  · intro hf t ht
    rw [upload_fail_fs env fs now p hf]
    exact ensure_temps_exist env ⟨fs, [], []⟩ now p t ht
  · intro hf t ht
    have hup : (upload_via_bot env ⟨fs, [], []⟩ now p).2 = false := by
      unfold send_one at hf
      dsimp only at hf
      by_cases hc : ((upload_via_bot env ⟨fs, [], []⟩ now p).2 && cfg.deleteAfterSend) = true
      · rw [if_pos hc] at hf
        simpa using hf
      · rw [if_neg hc] at hf
        simpa using hf
    unfold send_one
    dsimp only
    rw [if_neg (by simp [hup])]
    dsimp only
    rw [upload_fail_fs env fs now p hup]
    exact ensure_temps_exist env ⟨fs, [], []⟩ now p t ht

/-- Witness for C10 at a concrete run: the `.mkv` had to be converted to
`d/w.mp4`, the upload failed with a server error, and the converted file
is still present afterwards. -/
theorem C10_temps_survive_witness :
    fsExists (upload_via_bot envConvUploadFail ⟨fsMkvReady, [], []⟩ 999 "d/w.mkv").1.fs
      "d/w.mp4" = true :=
  (C10_temps_survive_failed_upload defaultCfg envConvUploadFail fsMkvReady 999 "d/w.mkv").1
    (by decide) "d/w.mp4" (by decide)

/-! ## Readiness scan -/

/-- C7: the readiness scan (with `FORCE_SEND_ALL` unset) returns exactly
the discovered files that pass the extension / partial-marker /
temporary-marker / minimum-size / maximum-size / stability filters, in
oldest-modified-first order; up to permutation the result does not depend
on discovery order. -/
theorem C7_list_ready_files (cfg : Cfg) (now : Int)
    (entries entries' : List (FPath × FileInfo)) :
    (∀ e, e ∈ list_ready_files cfg false now entries
        ↔ e ∈ entries ∧ readyPred cfg false now e = true)
    ∧ (list_ready_files cfg false now entries).Sorted mtimeLE
    ∧ (entries.Perm entries' →
        (list_ready_files cfg false now entries).Perm
          (list_ready_files cfg false now entries')) := by
  refine ⟨fun e => ?_, ?_, fun hperm => ?_⟩
  · unfold list_ready_files
    rw [List.mem_insertionSort]
    exact List.mem_filter
  · exact List.sorted_insertionSort mtimeLE _
  · unfold list_ready_files
    exact (List.perm_insertionSort _ _).trans
      ((hperm.filter _).trans (List.perm_insertionSort _ _).symm)

/-- Witness for C7 at a concrete scan: a stable, large-enough `.mp4`
appears in the result. -/
theorem C7_list_ready_files_witness :
    ("d/a.mp4", (⟨10485760, 0⟩ : FileInfo))
      ∈ list_ready_files defaultCfg false 100 [("d/a.mp4", ⟨10485760, 0⟩)] :=
  ((C7_list_ready_files defaultCfg 100 [("d/a.mp4", ⟨10485760, 0⟩)] []).1
    ("d/a.mp4", ⟨10485760, 0⟩)).mpr ⟨by decide, by decide⟩

/-! ## Dimensions of the re-encode scale filters -/

theorem scaleEven_ar (num den : Nat) (hd : 0 < den) :
    scaleEven num den * den ≤ num + den ∧ num ≤ scaleEven num den * den + den := by
  unfold scaleEven
  have h2 := Nat.div_add_mod (num + den) (2 * den)
  have h3 : (num + den) % (2 * den) < 2 * den := Nat.mod_lt _ (by omega)
  have e : (num + den) / (2 * den) * 2 * den = 2 * den * ((num + den) / (2 * den)) := by
    ring
  rw [e]
  generalize hgen : 2 * den * ((num + den) / (2 * den)) = t at h2 ⊢
  omega

theorem scaleEven_le (num den M : Nat) (hd : 0 < den)
    (h : num + den < (M + 1) * (2 * den)) :
    scaleEven num den ≤ 2 * M := by
  unfold scaleEven
  have hlt : (num + den) / (2 * den) < M + 1 :=
    (Nat.div_lt_iff_lt_mul (by omega)).2 h
  omega

/-- C9 counterexample: woman.py's recovery fallback re-encode
(`scale=-2:720` in `try_finalize_partial`) maps a 2560×720 source to
2560×720 — a width far outside the 1280×720 bounding box; and
telegram.py's `transcode_preserve_ar` expression maps the non-square
1439×1440 source to exactly 720×720, a 1:1 output from a non-1:1
source (the per-dimension rounding to a multiple of 2 can land on
square). -/
theorem C9_counterexample :
    womanScale720Dims 2560 720 = (2560, 720)
    ∧ ¬ (2560 ≤ 1280)
    ∧ telegramScaleDims 1439 1440 = (720, 720)
    ∧ (1439 : Nat) ≠ 1440 := by
  decide

/-- C9 (amended): telegram.py's full re-encode fits the 1280×720 box and
preserves the source aspect ratio up to the rounding of one dimension to
a multiple of 2 (cross-multiplied error at most `max inW inH`, i.e. at
most one rounding step — which also means a near-square source may round
to exactly 1:1); woman.py's recovery fallback re-encode preserves the
aspect ratio within the same tolerance but bounds only the height at
720, so its width is not confined to 1280. -/
theorem C9_reencode_dimensions (inW inH : Nat) (hW : 0 < inW) (hH : 0 < inH) :
    (telegramScaleDims inW inH).1 ≤ 1280
    ∧ (telegramScaleDims inW inH).2 ≤ 720
    ∧ (telegramScaleDims inW inH).1 * inH
        ≤ inW * (telegramScaleDims inW inH).2 + max inW inH
    ∧ inW * (telegramScaleDims inW inH).2
        ≤ (telegramScaleDims inW inH).1 * inH + max inW inH
    ∧ (womanScale720Dims inW inH).2 = 720
    ∧ (womanScale720Dims inW inH).1 * inH ≤ 720 * inW + inH
    ∧ 720 * inW ≤ (womanScale720Dims inW inH).1 * inH + inH := by
  have hwar := scaleEven_ar (720 * inW) inH hH
  unfold telegramScaleDims womanScale720Dims
  by_cases hc : 9 * inW > 16 * inH
  · rw [if_pos hc]
    dsimp only
    have har := scaleEven_ar (1280 * inH) inW hW
    have hbox : scaleEven (1280 * inH) inW ≤ 2 * 360 :=
      scaleEven_le (1280 * inH) inW 360 hW (by omega)
    refine ⟨le_refl _, by omega, ?_, ?_, rfl, hwar.1, hwar.2⟩
    · linarith [har.2, Nat.le_max_left inW inH]
    · linarith [har.1, Nat.le_max_left inW inH]
  · rw [if_neg hc]
    dsimp only
    have hbox : scaleEven (720 * inW) inH ≤ 2 * 640 :=
      scaleEven_le (720 * inW) inH 640 hH (by omega)
    refine ⟨by omega, le_refl _, ?_, ?_, rfl, hwar.1, hwar.2⟩
    · linarith [hwar.1, Nat.le_max_right inW inH]
    · linarith [hwar.2, Nat.le_max_right inW inH]

/-- Witness for the amended C9 at a concrete 16:9 source. -/
theorem C9_reencode_dimensions_witness :
    (telegramScaleDims 1920 1080).1 ≤ 1280 :=
  (C9_reencode_dimensions 1920 1080 (by decide) (by decide)).1

/-! ## Scheduler lemmas -/

theorem collectDedup_aux_nodup (l acc : List String) (h : acc.Nodup) :
    (l.foldl (fun acc u => if acc.contains u then acc else acc ++ [u]) acc).Nodup := by
  induction l generalizing acc with
  | nil => exact h
  | cons a t ih =>
      simp only [List.foldl_cons]
      by_cases hc : acc.contains a = true
      · rw [if_pos hc]
        exact ih acc h
      · rw [if_neg hc]
        apply ih
        have hmem : a ∉ acc := by simpa using hc
        simp [List.nodup_append, h, hmem]

/-- Discovery's `list(dict.fromkeys(urls))` yields a duplicate-free list. -/
theorem collectDedup_nodup (urls : List String) : (collectDedup urls).Nodup :=
  collectDedup_aux_nodup urls [] List.nodup_nil

/-- The finishing job chosen by the oracle is an element of the active list. -/
theorem schedStep_choice_mem (st : SchedState) (o : Nat) (h : st.active ≠ []) :
    st.active.getD (o % st.active.length) "" ∈ st.active := by
  have hlen : 0 < st.active.length := List.length_pos.2 h
  have hlt : o % st.active.length < st.active.length := Nat.mod_lt _ hlen
  rw [List.getD_eq_getElem _ _ hlt]
  exact List.getElem_mem hlt

/-- One scheduler transition never grows the active set beyond its
previous size: the finished job is removed first, and the replacement
spawn either has no backlog to draw from or deadlocks before starting
the new job. -/
theorem schedStep_active_le (k : Nat) (st : SchedState) (o : Nat)
    (h : st.active.length ≤ k) :
    (schedStep st o).active.length ≤ k := by
  unfold schedStep
  by_cases hd : st.deadlocked = true
  · rw [if_pos hd]
    exact h
  · rw [if_neg hd]
    by_cases he : st.active.isEmpty
    · rw [if_pos he]
      exact h
    · rw [if_neg he]
      have hne : st.active ≠ [] := fun hc => he (by simp [hc])
      have hlen : 0 < st.active.length := List.length_pos.2 hne
      have herase := List.length_erase_of_mem (schedStep_choice_mem st o hne)
      dsimp only
      cases hrem : st.remaining with
      | nil => dsimp only; omega
      | cons nx rest => dsimp only; omega

/-- A deadlocked scheduler never moves again. -/
theorem schedStep_deadlocked (st : SchedState) (o : Nat) (h : st.deadlocked = true) :
    schedStep st o = st := by
  unfold schedStep
  rw [if_pos h]

theorem schedRun_deadlocked (oracle : Nat → Nat) :
    ∀ n (st : SchedState), st.deadlocked = true → schedRun oracle n st = st := by
  intro n
  induction n with
  | zero => intro st _; rfl
  | succ n ih =>
      intro st h
      rw [schedRun, schedStep_deadlocked st (oracle n) h]
      exact ih st h

theorem schedRun_active_le (k : Nat) (oracle : Nat → Nat) :
    ∀ n st, st.active.length ≤ k → (schedRun oracle n st).active.length ≤ k := by
  intro n
  induction n with
  | zero => intro st h; exact h
  | succ n ih =>
      intro st h
      exact ih _ (schedStep_active_le k st (oracle n) h)

/-- C5: the capacity invariant of the scheduler: the initial active set
is the first `max_active` locators, the remainder forms the FIFO
backlog, and after any number of terminal transitions (each of which
removes the finished job before spawning at most one replacement) the
number of running jobs never exceeds `max_active`. -/
theorem C5_capacity_invariant (rooms : List String) (k : Nat) (oracle : Nat → Nat) :
    (initSched rooms k).active = rooms.take k
    ∧ (initSched rooms k).remaining = rooms.drop k
    ∧ ∀ n, (schedRun oracle n (initSched rooms k)).active.length ≤ k := by
  refine ⟨rfl, rfl, fun n => ?_⟩
  have hinit : (initSched rooms k).active.length ≤ k := by
    simp [initSched]
  exact schedRun_active_le k oracle n (initSched rooms k) hinit

/-- Invariant behind the deadlock theorem: the launch list never grows
past the initial set (the only spawn site reachable after start-up
deadlocks before starting its job), and the backlog can only shrink by
deadlocking. -/
theorem schedRun_deadlock_invariant (rooms : List String) (k : Nat) (oracle : Nat → Nat) :
    ∀ n st, st.launched = rooms.take k →
      (st.deadlocked = true ∨ st.remaining ≠ []) →
      (schedRun oracle n st).launched = rooms.take k
        ∧ ((schedRun oracle n st).deadlocked = true
            ∨ (schedRun oracle n st).remaining ≠ []) := by
  intro n
  induction n with
  | zero => intro st h1 h2; exact ⟨h1, h2⟩
  | succ n ih =>
      intro st h1 h2
      rw [schedRun]
      apply ih
      · unfold schedStep
        by_cases hd : st.deadlocked = true
        · rw [if_pos hd]
          exact h1
        · rw [if_neg hd]
          by_cases he : st.active.isEmpty
          · rw [if_pos he]
            exact h1
          · rw [if_neg he]
            dsimp only
            cases hrem : st.remaining with
            | nil => exact h1
            | cons nx rest => exact h1
      · unfold schedStep
        by_cases hd : st.deadlocked = true
        · rw [if_pos hd]
          exact Or.inl hd
        · rw [if_neg hd]
          rcases h2 with hdl | hrm
          · exact absurd hdl hd
          · by_cases he : st.active.isEmpty
            · rw [if_pos he]
              exact Or.inr hrm
            · rw [if_neg he]
              dsimp only
              cases hrem : st.remaining with
              | nil => exact absurd hrem hrm
              | cons nx rest => exact Or.inl rfl

/-- C4: the code contradicts the claim (and its own comment "se houver
mais, dispara próximo"): whenever more locators were discovered than
`max_active`, only the initial `max_active` jobs are ever launched.
After any number of completions the launch list is still `rooms.take k`
— strictly fewer than all locators — and the run never reaches the
terminated state: the first finishing runner pops the backlog and then
self-deadlocks re-acquiring the non-reentrant `jobs_lock` inside
`spawn_job`, freezing the scheduler. -/
theorem C4_backlog_deadlock (rooms : List String) (k : Nat) (oracle : Nat → Nat)
    (hlen : k < rooms.length) :
    ∀ n, (schedRun oracle n (initSched rooms k)).launched = rooms.take k
      ∧ (schedRun oracle n (initSched rooms k)).launched.length < rooms.length
      ∧ schedTerminated (schedRun oracle n (initSched rooms k)) = false := by
  intro n
  have hinv := schedRun_deadlock_invariant rooms k oracle n (initSched rooms k) rfl ?_
  · refine ⟨hinv.1, ?_, ?_⟩
    · rw [hinv.1, List.length_take]
      omega
    · unfold schedTerminated
      rcases hinv.2 with hdl | hrm
      · simp [hdl]
      · have hempty : (schedRun oracle n (initSched rooms k)).remaining.isEmpty = false := by
          cases hcase : (schedRun oracle n (initSched rooms k)).remaining with
          | nil => exact absurd hcase hrm
          | cons _ _ => rfl
        simp [hempty]
  · right
    simp only [initSched]
    intro hc
    have hlen0 := congrArg List.length hc
    simp only [List.length_drop, List.length_nil] at hlen0
    omega

/-- Witness for C4's deadlock theorem at the failing input
`["a", "b"]` with `max_active = 1`: after the first completion only
`"a"` was ever launched and the run has not terminated. -/
theorem C4_backlog_deadlock_witness :
    (schedRun (fun _ => 0) 3 (initSched ["a", "b"] 1)).launched = ["a", "b"].take 1
    ∧ (schedRun (fun _ => 0) 3 (initSched ["a", "b"] 1)).launched.length
        < (["a", "b"] : List String).length
    ∧ schedTerminated (schedRun (fun _ => 0) 3 (initSched ["a", "b"] 1)) = false :=
  C4_backlog_deadlock ["a", "b"] 1 (fun _ => 0) (by decide) 3

end Charbot
